import Mathlib

/-!
Verification of the dataset-handling and utility layer of the
Lidar_intensity_modelling repository.

The development shallowly embeds the Python sources:
  * `src/dataset/datahandler.py` — `UnaryScan`, `BinaryScan`, `Loader`;
  * `src/util/__init__.py` — `sigmoid_to_tanh`, `tanh_to_sigmoid`, `_map`.

Machine floats are modelled by exact rationals (`ℚ`); numpy arrays by
(nested) lists; Python dictionaries by association lists iterated in
insertion order; exceptions by `Except`.
-/

set_option autoImplicit false

namespace LidarSpec

/-! ### Range conversion helpers (`src/util/__init__.py`, lines 66-75) -/

/-- Embeds `sigmoid_to_tanh`: `out = x * 2.0 - 1.0`. -/
def sigmoid_to_tanh (x : ℚ) : ℚ := x * 2 - 1

/-- Embeds `tanh_to_sigmoid`: `out = (x + 1.0) / 2.0`. -/
def tanh_to_sigmoid (x : ℚ) : ℚ := (x + 1) / 2

/-! ### Grids

A scan channel is a 2-dimensional numpy array of shape (H, W), embedded as a
list of rows; a whole projected scan `proj` is a list of channels. -/

/-- A single (H, W) channel: a list of rows of rationals. -/
abbrev Grid : Type := List (List ℚ)

/-- Pointwise combination of two grids (numpy elementwise binary op). -/
def gridZip (f : ℚ → ℚ → ℚ) (a b : Grid) : Grid :=
  List.zipWith (List.zipWith f) a b

/-- Pointwise map over a grid (numpy elementwise unary op). -/
def gridMap (f : ℚ → ℚ) (a : Grid) : Grid := a.map (List.map f)

/-- All values stored in a grid, in row-major order. -/
def gridVals (a : Grid) : List ℚ := a.flatten

/-- Values of a channel row at the positions where the mask row equals `1`,
in order: one row of the boolean-mask selection `ch[mask == 1.0]`. -/
def maskedRow (cr mr : List ℚ) : List ℚ :=
  (cr.zip mr).filterMap (fun p => if p.2 = 1 then some p.1 else none)

/-- Values of a channel at positions where the mask equals `1`, row-major:
the numpy boolean-mask selection `proj[i][b_mask]` with `b_mask = proj[5] == 1.0`. -/
def maskedVals (ch m : Grid) : List ℚ :=
  (List.zipWith maskedRow ch m).flatten

/-- Values of a channel row at positions where the mask row differs from `1`
(the complement of the selection `b_mask = (mr == 1.0)`). -/
def unmaskedRow (cr mr : List ℚ) : List ℚ :=
  (cr.zip mr).filterMap (fun p => if p.2 = 1 then none else some p.1)

/-- Values of a channel at positions not selected by the validity mask. -/
def unmaskedVals (ch m : Grid) : List ℚ :=
  (List.zipWith unmaskedRow ch m).flatten

/-- Minimum of a list of rationals; numpy `.min()` on the nonempty case
(numpy raises on an empty array, the `[]` case below is never reached
under the nonemptiness hypotheses of the theorems). -/
def listMin : List ℚ → ℚ
  | [] => 0
  | x :: xs => xs.foldl min x

/-- Maximum of a list of rationals; numpy `.max()` on the nonempty case. -/
def listMax : List ℚ → ℚ
  | [] => 0
  | x :: xs => xs.foldl max x

/-! ### `UnaryScan.__getitem__` (`src/dataset/datahandler.py`, lines 37-70) -/

/-- Channel `i` of a loaded projection array (`proj[i]`). -/
def chan (proj : List Grid) (i : ℕ) : Grid := proj.getD i []

/-- Denominator `Max - Min` of the per-channel min-max normalization,
with `Min`/`Max` taken over the mask-selected pixels only. -/
def normDenom (ch m : Grid) : ℚ :=
  listMax (maskedVals ch m) - listMin (maskedVals ch m)

/-- The two successive in-place updates applied to one masked pixel:
`(x - Min)/(Max - Min)` followed by `(y - 0.5)/0.5`. -/
def normVal (mn mx x : ℚ) : ℚ :=
  ((x - mn) / (mx - mn) - 1/2) / (1/2)

/-- Per-channel min-max normalization of `UnaryScan.__getitem__`: masked
pixels are rescaled with the channel's masked min/max, unmasked pixels are
left unchanged (the in-place update writes only through `b_mask`). -/
def normChannel (ch m : Grid) : Grid :=
  let mn := listMin (maskedVals ch m)
  let mx := listMax (maskedVals ch m)
  gridZip (fun x mv => if mv = 1 then normVal mn mx x else x) ch m

/-- `np.repeat(·, k, axis=1)` on one channel of a (C, H, W) array: axis 1 is
the row (height) axis, so each row is repeated `k` times in place. -/
def repeatRows (k : ℕ) (g : Grid) : Grid :=
  g.flatMap (fun r => List.replicate k r)

/-- The tuple returned by `UnaryScan.__getitem__`. -/
structure ScanItem where
  xyz : List Grid
  range : Grid
  remission : Grid
  mask : Grid
  rgb : List Grid
  deriving DecidableEq

/-- Embeds the body of `UnaryScan.__getitem__` on an already-loaded
projection array `proj`: per-channel masked min-max normalization of
channels 0-4, optional RGB rescale of channels 6-8, `np.repeat(proj, 4, axis=1)`,
then extraction of the component tensors, each multiplied by the mask. -/
def getitem (proj : List Grid) (haveRgb : Bool) : ScanItem :=
  let m := chan proj 5
  let norm := fun i => normChannel (chan proj i) m
  let rgbScale := fun g => gridMap (fun x => x / (255/2) - 1) g
  let mRep := repeatRows 4 m
  let maskMul := fun g => gridZip (fun x mv => x * mv) (repeatRows 4 g) mRep
  { xyz := [maskMul (norm 0), maskMul (norm 1), maskMul (norm 2)]
    range := maskMul (norm 3)
    remission := maskMul (norm 4)
    mask := mRep
    rgb := if haveRgb then
        [maskMul (rgbScale (chan proj 6)), maskMul (rgbScale (chan proj 7)),
         maskMul (rgbScale (chan proj 8))]
      else [] }

/-- The five data components of the returned tuple whose pixels the spec
constrains: the three `xyz` channels, `range`, and `remission`. -/
def outChannels (it : ScanItem) : List Grid :=
  it.xyz ++ [it.range, it.remission]

/-- A list holding at least two distinct values. -/
def TwoDistinct (l : List ℚ) : Prop := ∃ a ∈ l, ∃ b ∈ l, a ≠ b

instance (l : List ℚ) : Decidable (TwoDistinct l) := by
  unfold TwoDistinct; infer_instance

/-! ### Sensor statistics and dataset classes
(`src/dataset/datahandler.py`, lines 15-95) -/

/-- A value of the per-sensor statistics dictionary `data_stats`. -/
inductive StatVal
  | bval (v : Bool)
  | qval (v : ℚ)
  | qlist (v : List ℚ)
  deriving DecidableEq

/-- The `data_stats` dictionary: key/value entries in insertion order. -/
abbrev DataStats : Type := List (String × StatVal)

/-- The `data_stats['have_rgb']` flag. -/
def statHaveRgb (st : DataStats) : Bool :=
  match st.find? (fun p => p.1 = "have_rgb") with
  | some (_, .bval v) => v
  | _ => false

/-- State of a constructed `UnaryScan`: the sorted scan files (as the arrays
`np.load` would return) and the sensor statistics dictionary. -/
structure UnaryScan where
  scans : List (List Grid)
  dataStats : DataStats

/-- `UnaryScan.__len__`: `len(self.scan_file_names)`. -/
def UnaryScan.length (s : UnaryScan) : ℕ := s.scans.length

/-- `UnaryScan.__getitem__` at an in-range index. -/
def UnaryScan.getitemAt (s : UnaryScan) (i : ℕ) : ScanItem :=
  getitem (s.scans.getD i []) (statHaveRgb s.dataStats)

/-- State of a constructed `BinaryScan`: the two composed `UnaryScan`
datasets (each carrying the `data_stats` dictionary it was built with). -/
structure BinaryScan where
  datasetA : UnaryScan
  datasetB : UnaryScan

/-- `self.sizeA = len(data_statsA)`: the size of the statistics dictionary
passed for domain A (not the number of scans). -/
def BinaryScan.sizeA (b : BinaryScan) : ℕ := b.datasetA.dataStats.length

/-- `self.sizeB = len(data_statsB)`. -/
def BinaryScan.sizeB (b : BinaryScan) : ℕ := b.datasetB.dataStats.length

/-- `BinaryScan.__len__`: `max(self.sizeA, self.sizeB)`. -/
def BinaryScan.length (b : BinaryScan) : ℕ := max b.sizeA b.sizeB

/-- `index_A = index % self.sizeA` in `BinaryScan.__getitem__`. -/
def BinaryScan.indexA (b : BinaryScan) (i : ℕ) : ℕ := i % b.sizeA

/-- The domain-A component of `BinaryScan.__getitem__`:
`self.datasetA[index_A]`. -/
def BinaryScan.itemA (b : BinaryScan) (i : ℕ) : ScanItem :=
  b.datasetA.getitemAt (b.indexA i)

/-! ### Label lookup table `_map` (`src/util/__init__.py`, lines 197-222;
   the identical `BinaryScan.map`, `src/dataset/datahandler.py`, 97-121) -/

/-- A value of the label mapping dictionary: a scalar or a list. -/
inductive MapVal
  | scalar (v : ℤ)
  | vec (l : List ℤ)
  deriving DecidableEq

/-- Length `nel` contributed by one mapping value: `len(data)` for a list,
`1` otherwise. -/
def nelOf : MapVal → ℕ
  | .scalar _ => 1
  | .vec l => l.length

/-- Value of the Python variable `nel` after the first loop over
`mapdict.items()`: the length of the last value iterated, or unbound
(`none`, a `NameError` at the following `if nel > 1`) for an empty dict. -/
def computeNel (m : List (ℤ × MapVal)) : Option ℕ :=
  m.foldl (fun _ kv => some (nelOf kv.2)) none

/-- Value of `maxkey` after the first loop: starts at `0` and is updated
whenever `key > maxkey`. -/
def codeMaxKey (m : List (ℤ × MapVal)) : ℤ :=
  m.foldl (fun acc kv => if kv.1 > acc then kv.1 else acc) 0

/-- Allocated table length `maxkey + 100` (the `+100` hack). -/
def lutSize (m : List (ℤ × MapVal)) : ℕ := (codeMaxKey m).toNat + 100

/-- Maximum vector length across all values of the mapping (what the spec
claims drives the table's per-entry shape). -/
def maxNel (m : List (ℤ × MapVal)) : ℕ :=
  m.foldl (fun acc kv => max acc (nelOf kv.2)) 0

/-- Numpy index semantics for `lut[key]` on a table of `size` entries:
nonnegative keys index directly, negative keys index from the end, anything
else raises `IndexError` (`none`). -/
def effIndex (size : ℕ) (key : ℤ) : Option ℕ :=
  if 0 ≤ key then (if key < (size : ℤ) then some key.toNat else none)
  else (if -(size : ℤ) ≤ key then some (key + size).toNat else none)

/-- Whether `lut[key] = data` succeeds once the index is in range: scalars
always broadcast; a list must match the row length `nel` or have length 1
(numpy broadcast), otherwise the assignment raises a `ValueError` that the
`except IndexError` clause does not catch. -/
def storable (nel : ℕ) : MapVal → Bool
  | .scalar _ => true
  | .vec l => decide (l.length = nel) || decide (l.length = 1)

/-- The row stored by `lut[key] = data` (scalars and length-1 lists
broadcast across the row). -/
def toRow (nel : ℕ) : MapVal → List ℤ
  | .scalar v => List.replicate nel v
  | .vec l => if l.length = 1 then List.replicate nel (l.headD 0) else l

/-- The built lookup table: entry width `nel` (1 in the one-dimensional
case), allocated length `size`, the rows, and the keys skipped by the
`except IndexError` branch (each printed as `"Wrong key"`). -/
structure Lut where
  nel : ℕ
  size : ℕ
  rows : List (List ℤ)
  skipped : List ℤ
  deriving DecidableEq

/-- The second loop of `_map`: each `lut[key] = data` in order, skipping
(and recording) keys that raise `IndexError`, failing on a `ValueError`. -/
def assignLoop (nel size : ℕ) :
    List (ℤ × MapVal) → List (List ℤ) → Except String (List (List ℤ) × List ℤ)
  | [], rows => .ok (rows, [])
  | kv :: rest, rows =>
    match effIndex size kv.1 with
    | none =>
      match assignLoop nel size rest rows with
      | .ok (r, sk) => .ok (r, kv.1 :: sk)
      | .error e => .error e
    | some j =>
      if storable nel kv.2 then assignLoop nel size rest (rows.set j (toRow nel kv.2))
      else .error "ValueError"

/-- Lookup-table construction of `_map`/`BinaryScan.map`: compute `nel` and
`maxkey`, allocate `np.zeros(maxkey + 100, ...)` (with a second dimension
`nel` when `nel > 1`; rows of width 1 embed the one-dimensional case), then
run the assignment loop. -/
def buildLut (m : List (ℤ × MapVal)) : Except String Lut :=
  match computeNel m with
  | none => .error "NameError: nel referenced before assignment"
  | some nel =>
    match assignLoop nel (lutSize m) m
        (List.replicate (lutSize m) (List.replicate nel 0)) with
    | .ok (rows, sk) => .ok ⟨nel, lutSize m, rows, sk⟩
    | .error e => .error e

/-- Reading table entry `j` (`lut[j]` for `0 ≤ j < size`). -/
def lutLookup (lut : Lut) (j : ℕ) : List ℤ := lut.rows.getD j []

/-! ### Loader splits (`src/dataset/datahandler.py`, lines 124-179) -/

/-- Python `int()` applied to a float: truncation toward zero. -/
def pyInt (q : ℚ) : ℤ := if 0 ≤ q then ⌊q⌋ else -⌊-q⌋

/-- Python slice `l[k:]`, including the negative-index convention. -/
def pySliceFrom (l : List ℕ) (k : ℤ) : List ℕ :=
  if 0 ≤ k then l.drop k.toNat else l.drop (l.length - (-k).toNat)

/-- Python slice `l[:k]`, including the negative-index convention. -/
def pySliceTo (l : List ℕ) (k : ℤ) : List ℕ :=
  if 0 ≤ k then l.take k.toNat else l.take (l.length - (-k).toNat)

/-- The split point `int(val_split_ratio * total_samples)`. -/
def splitIndex (n : ℕ) (r : ℚ) : ℤ := pyInt (r * n)

/-- `val_indcs = range(total_samples)[:int(val_split_ratio*total_samples)]`. -/
def valIndcs (n : ℕ) (r : ℚ) : List ℕ :=
  pySliceTo (List.range n) (splitIndex n r)

/-- `train_indcs = range(total_samples)[int(val_split_ratio*total_samples):]`. -/
def trainIndcs (n : ℕ) (r : ℚ) : List ℕ :=
  pySliceFrom (List.range n) (splitIndex n r)

/-- `len` of a `DataLoader` over `n` samples: `n // batch` when
`drop_last=True`, `ceil(n / batch)` otherwise. -/
def dataLoaderLen (n batch : ℕ) (dropLast : Bool) : ℕ :=
  if dropLast then n / batch else (n + batch - 1) / batch

/-- The loaders a successful `Loader.__init__` constructs: their batch
counts in the train-and-validation case and in the test case. -/
inductive LoaderOut
  | trainVal (trainBatches valBatches : ℕ)
  | testOnly (testBatches : ℕ)
  deriving DecidableEq

/-- Embeds `Loader.__init__` after `total_samples` is known: builds the
contiguous splits, then each `DataLoader` (train with `drop_last=True`,
validation/test without), failing at the first violated `assert`. -/
def loaderInit (n batchSize : ℕ) (r : ℚ) (isTrain isTrainingData : Bool) :
    Except String LoaderOut :=
  if isTrain then
    if isTrainingData = false then .error "assert is_training_data" else
    let tb := dataLoaderLen (trainIndcs n r).length batchSize true
    if tb = 0 then .error "assert len(trainloader) > 0" else
    let vb := dataLoaderLen (valIndcs n r).length batchSize false
    if vb = 0 then .error "assert len(validloader) > 0"
    else .ok (.trainVal tb vb)
  else
    let testLen := if isTrainingData then (valIndcs n r).length else n
    let tb := dataLoaderLen testLen batchSize false
    if tb = 0 then .error "assert len(testloader) > 0" else .ok (.testOnly tb)

/-- Whether an `Except` computation succeeded (no assertion fired). -/
def isOkE {α : Type} : Except String α → Bool
  | .ok _ => true
  | .error _ => false

/-! ### Concrete data used to instantiate the theorems -/

/-- Height (number of rows) of a grid: axis 1 of the (C, H, W) array. -/
def gridH (g : Grid) : ℕ := g.length

/-- Width (row length) of a grid: axis 2 of the (C, H, W) array. -/
def gridW (g : Grid) : ℕ := (g.headD []).length

/-- A minimal six-channel scan of shape (6, 1, 2): channels 0-4 hold the
values `0, 1`, channel 5 is the all-valid binary mask. -/
def projEx : List Grid :=
  [[[0, 1]], [[0, 1]], [[0, 1]], [[0, 1]], [[0, 1]], [[1, 1]]]

/-- A three-entry sensor statistics dictionary (as in the configuration
files: minima, maxima, RGB flag). -/
def statsEx : DataStats :=
  [("img_min", .qlist [0]), ("img_max", .qlist [1]), ("have_rgb", .bval false)]

/-- A `BinaryScan` whose domain-A dataset holds 5 scans and domain-B
dataset holds 2 scans, each built with the three-entry statistics. -/
def bsEx : BinaryScan :=
  ⟨⟨List.replicate 5 projEx, statsEx⟩, ⟨List.replicate 2 projEx, statsEx⟩⟩

/-- The mapping `{0: [1,2,3], 3: 5}`: values mix a list and a scalar, with
the scalar iterated last. -/
def mixedDict : List (ℤ × MapVal) := [(0, .vec [1, 2, 3]), (3, .scalar 5)]

/-- The spec's example mapping `{0: 5, 3: [1,2,3]}` in insertion order. -/
def specDict : List (ℤ × MapVal) := [(0, .scalar 5), (3, .vec [1, 2, 3])]

/-- The lookup table `_map` builds from `specDict`: 103 rows of width 3,
row 0 the broadcast `[5,5,5]`, row 3 the vector `[1,2,3]`, no skips. -/
def specLut : Lut :=
  ⟨3, 103,
   ((List.replicate 103 (List.replicate 3 (0 : ℤ))).set 0
       (List.replicate 3 5)).set 3 [1, 2, 3],
   []⟩

/-- A mapping with one in-range key and one key so negative that numpy
raises `IndexError` on the assignment. -/
def skipDict : List (ℤ × MapVal) := [(5, .scalar 7), (-2000, .scalar 9)]

/-- A channel that is constant (value 2) over the valid pixels. -/
def constChan : Grid := [[2, 2]]

/-- The all-valid 1x2 mask used with `constChan`. -/
def fullMask : Grid := [[1, 1]]

end LidarSpec

namespace LidarSpec

/-! ### Theorems: range conversions (claim C9) -/

/-- C9: the range conversions are mutually inverse — for every `x`,
`tanh_to_sigmoid (sigmoid_to_tanh x) = x` and
`sigmoid_to_tanh (tanh_to_sigmoid x) = x` in exact arithmetic. -/
theorem range_conversions_inverse :
    (∀ x : ℚ, tanh_to_sigmoid (sigmoid_to_tanh x) = x) ∧
    (∀ x : ℚ, sigmoid_to_tanh (tanh_to_sigmoid x) = x) := by
  constructor <;> intro x <;>
    simp only [tanh_to_sigmoid, sigmoid_to_tanh] <;> ring

/-! ### Helper lemmas about lists -/

theorem list_getD_set_ne {α : Type} (a d : α) :
    ∀ (l : List α) (i j : ℕ), i ≠ j → (l.set i a).getD j d = l.getD j d
  | [], _, _, _ => rfl
  | _ :: _, 0, 0, h => absurd rfl h
  | _ :: _, 0, _ + 1, _ => rfl
  | _ :: _, _ + 1, 0, _ => rfl
  | _ :: t, i + 1, j + 1, h => list_getD_set_ne a d t i j (by omega)

theorem list_getD_replicate {α : Type} (x d : α) :
    ∀ (k j : ℕ), j < k → (List.replicate k x).getD j d = x
  | k + 1, 0, _ => rfl
  | k + 1, j + 1, h => list_getD_replicate x d k j (by omega)

/-! ### Helper lemmas about the `_map` assignment loop -/

theorem assignLoop_nil (nel size : ℕ) (rows : List (List ℤ)) :
    assignLoop nel size [] rows = Except.ok (rows, []) := rfl

theorem assignLoop_getD_unassigned (nel size j : ℕ)
    (entries : List (ℤ × MapVal)) :
    ∀ (rows rows' : List (List ℤ)) (sk : List ℤ),
      assignLoop nel size entries rows = Except.ok (rows', sk) →
      (∀ kv ∈ entries, effIndex size kv.1 ≠ some j) →
      rows'.getD j [] = rows.getD j [] := by
  induction entries with
  | nil =>
    intro rows rows' sk h _
    simp only [assignLoop, Except.ok.injEq, Prod.mk.injEq] at h
    rw [← h.1]
  | cons kv rest ih =>
    intro rows rows' sk h hj
    have hkv : effIndex size kv.1 ≠ some j := hj kv (List.mem_cons_self kv rest)
    have hrest : ∀ a ∈ rest, effIndex size a.1 ≠ some j :=
      fun a ha => hj a (List.mem_cons_of_mem kv ha)
    cases heff : effIndex size kv.1 with
    | none =>
      simp only [assignLoop, heff] at h
      cases hrec : assignLoop nel size rest rows with
      | error e => rw [hrec] at h; simp at h
      | ok p =>
        obtain ⟨r0, sk0⟩ := p
        rw [hrec] at h
        simp only [Except.ok.injEq, Prod.mk.injEq] at h
        rw [← h.1]
        exact ih rows r0 sk0 hrec hrest
    | some i =>
      have hij : i ≠ j := fun hh => hkv (by rw [heff, hh])
      by_cases hs : storable nel kv.2 = true
      · simp only [assignLoop, heff, hs, if_true] at h
        have := ih (rows.set i (toRow nel kv.2)) rows' sk h hrest
        rw [this, list_getD_set_ne _ _ rows i j hij]
      · exfalso
        simp [assignLoop, heff, hs] at h

theorem assignLoop_length (nel size : ℕ) (entries : List (ℤ × MapVal)) :
    ∀ (rows rows' : List (List ℤ)) (sk : List ℤ),
      assignLoop nel size entries rows = Except.ok (rows', sk) →
      rows'.length = rows.length := by
  induction entries with
  | nil =>
    intro rows rows' sk h
    simp only [assignLoop, Except.ok.injEq, Prod.mk.injEq] at h
    rw [← h.1]
  | cons kv rest ih =>
    intro rows rows' sk h
    cases heff : effIndex size kv.1 with
    | none =>
      simp only [assignLoop, heff] at h
      cases hrec : assignLoop nel size rest rows with
      | error e => rw [hrec] at h; simp at h
      | ok p =>
        obtain ⟨r0, sk0⟩ := p
        rw [hrec] at h
        simp only [Except.ok.injEq, Prod.mk.injEq] at h
        rw [← h.1]
        exact ih rows r0 sk0 hrec
    | some i =>
      by_cases hs : storable nel kv.2 = true
      · simp only [assignLoop, heff, hs, if_true] at h
        rw [ih _ _ _ h, List.length_set]
      · exfalso
        simp [assignLoop, heff, hs] at h

theorem assignLoop_ok (nel size : ℕ) (entries : List (ℤ × MapVal)) :
    ∀ rows : List (List ℤ),
      (∀ kv ∈ entries, storable nel kv.2 = true) →
      ∃ rows' sk, assignLoop nel size entries rows = Except.ok (rows', sk) ∧
        ∀ kv ∈ entries, effIndex size kv.1 = none → kv.1 ∈ sk := by
  induction entries with
  | nil => exact fun rows _ => ⟨rows, [], rfl, by simp⟩
  | cons kv rest ih =>
    intro rows hst
    have hstRest : ∀ a ∈ rest, storable nel a.2 = true :=
      fun a ha => hst a (List.mem_cons_of_mem kv ha)
    cases heff : effIndex size kv.1 with
    | none =>
      obtain ⟨r0, sk0, hok, hsk⟩ := ih rows hstRest
      refine ⟨r0, kv.1 :: sk0, ?_, ?_⟩
      · simp only [assignLoop, heff, hok]
      · intro a ha hae
        rcases List.mem_cons.mp ha with rfl | ha'
        · exact List.mem_cons_self _ _
        · exact List.mem_cons_of_mem _ (hsk a ha' hae)
    | some i =>
      have hs : storable nel kv.2 = true := hst kv (List.mem_cons_self kv rest)
      obtain ⟨r0, sk0, hok, hsk⟩ := ih (rows.set i (toRow nel kv.2)) hstRest
      refine ⟨r0, sk0, ?_, ?_⟩
      · simp only [assignLoop, heff, hs, if_true]
        exact hok
      · intro a ha hae
        rcases List.mem_cons.mp ha with rfl | ha'
        · rw [heff] at hae; cases hae
        · exact hsk a ha' hae

theorem assignLoop_skipped_nil (nel size : ℕ) (entries : List (ℤ × MapVal)) :
    ∀ (rows rows' : List (List ℤ)) (sk : List ℤ),
      (∀ kv ∈ entries, effIndex size kv.1 ≠ none) →
      assignLoop nel size entries rows = Except.ok (rows', sk) → sk = [] := by
  induction entries with
  | nil =>
    intro rows rows' sk _ h
    simp only [assignLoop, Except.ok.injEq, Prod.mk.injEq] at h
    rw [← h.2]
  | cons kv rest ih =>
    intro rows rows' sk hin h
    cases heff : effIndex size kv.1 with
    | none => exact absurd heff (hin kv (List.mem_cons_self kv rest))
    | some i =>
      by_cases hs : storable nel kv.2 = true
      · simp only [assignLoop, heff, hs, if_true] at h
        exact ih _ _ _ (fun a ha => hin a (List.mem_cons_of_mem kv ha)) h
      · exfalso
        simp [assignLoop, heff, hs] at h

theorem buildLut_ok_inv (m : List (ℤ × MapVal)) (lut : Lut)
    (h : buildLut m = Except.ok lut) :
    computeNel m = some lut.nel ∧ lut.size = lutSize m ∧
      assignLoop lut.nel (lutSize m) m
        (List.replicate (lutSize m) (List.replicate lut.nel 0)) =
        Except.ok (lut.rows, lut.skipped) := by
  cases hc : computeNel m with
  | none =>
    exfalso
    simp [buildLut, hc] at h
  | some nel =>
    cases ha : assignLoop nel (lutSize m) m
        (List.replicate (lutSize m) (List.replicate nel 0)) with
    | error e =>
      exfalso
      simp [buildLut, hc, ha] at h
    | ok p =>
      obtain ⟨rows, sk⟩ := p
      simp only [buildLut, hc, ha] at h
      cases h
      exact ⟨rfl, rfl, ha⟩

/-! ### Helper lemmas about `maxkey` -/

theorem foldl_maxkey_init_le (entries : List (ℤ × MapVal)) :
    ∀ a : ℤ, a ≤ entries.foldl (fun acc kv => if kv.1 > acc then kv.1 else acc) a := by
  induction entries with
  | nil => exact fun a => le_refl a
  | cons kv rest ih =>
    intro a
    refine le_trans ?_ (ih (if kv.1 > a then kv.1 else a))
    split <;> omega

theorem key_le_foldl_maxkey (entries : List (ℤ × MapVal)) :
    ∀ (a : ℤ) (kv : ℤ × MapVal), kv ∈ entries →
      kv.1 ≤ entries.foldl (fun acc kv => if kv.1 > acc then kv.1 else acc) a := by
  induction entries with
  | nil => intro a kv h; cases h
  | cons b rest ih =>
    intro a kv hkv
    rcases List.mem_cons.mp hkv with rfl | h'
    · refine le_trans ?_ (foldl_maxkey_init_le rest (if kv.1 > a then kv.1 else a))
      split <;> omega
    · exact ih _ kv h'

theorem foldl_maxkey_le (entries : List (ℤ × MapVal)) (K : ℤ)
    (hall : ∀ kv ∈ entries, kv.1 ≤ K) :
    ∀ a : ℤ, a ≤ K →
      entries.foldl (fun acc kv => if kv.1 > acc then kv.1 else acc) a ≤ K := by
  induction entries with
  | nil => exact fun a ha => ha
  | cons kv rest ih =>
    intro a ha
    have hk : kv.1 ≤ K := hall kv (List.mem_cons_self kv rest)
    refine ih (fun a' h' => hall a' (List.mem_cons_of_mem kv h')) _ ?_
    show (if kv.1 > a then kv.1 else a) ≤ K
    split <;> omega

theorem codeMaxKey_nonneg (m : List (ℤ × MapVal)) : 0 ≤ codeMaxKey m :=
  foldl_maxkey_init_le m 0

theorem le_codeMaxKey (m : List (ℤ × MapVal)) (kv : ℤ × MapVal) (h : kv ∈ m) :
    kv.1 ≤ codeMaxKey m :=
  key_le_foldl_maxkey m 0 kv h

theorem codeMaxKey_eq (m : List (ℤ × MapVal)) (K : ℤ)
    (hK : K ∈ m.map (fun kv => kv.1)) (hall : ∀ kv ∈ m, kv.1 ≤ K) (h0 : 0 ≤ K) :
    codeMaxKey m = K := by
  obtain ⟨kv, hkv, h1⟩ := List.mem_map.mp hK
  exact le_antisymm (foldl_maxkey_le m K hall 0 h0) (h1 ▸ le_codeMaxKey m kv hkv)

theorem effIndex_nonneg_lt (size : ℕ) (k : ℤ) (h0 : 0 ≤ k) (hlt : k < (size : ℤ)) :
    effIndex size k = some k.toNat := by
  simp [effIndex, h0, hlt]

theorem buildLut_unassigned_zero (m : List (ℤ × MapVal)) (lut : Lut)
    (h : buildLut m = Except.ok lut) (j : ℕ) (hj : j < lut.size)
    (hun : ∀ kv ∈ m, effIndex lut.size kv.1 ≠ some j) :
    lutLookup lut j = List.replicate lut.nel 0 := by
  obtain ⟨_, hsize, hassign⟩ := buildLut_ok_inv m lut h
  have hpres := assignLoop_getD_unassigned lut.nel (lutSize m) j m _ _ _ hassign
    (fun kv hkv => hsize ▸ hun kv hkv)
  rw [lutLookup, hpres, list_getD_replicate]
  rw [← hsize]
  exact hj

/-! ### Theorems: label lookup table (claims C3, C8, C10) -/

/-- C3 counterexample: for the mapping `{0: [1,2,3], 3: 5}` the maximum
vector length across values is 3, but `nel` — which drives the allocated
per-entry shape — is 1, the length of the last value iterated; the
construction then aborts with a `ValueError` instead of building a
max-width table. -/
theorem lut_shape_counterexample :
    computeNel mixedDict = some 1 ∧ maxNel mixedDict = 3 ∧
    buildLut mixedDict = Except.error "ValueError" :=
  ⟨by decide, by decide, by rfl⟩

/-- C3 amended: the per-entry shape of the table is driven by the vector
length of the last value in the mapping's iteration order (`nel` is
overwritten on every iteration), and a lookup at any unmapped index
smaller than the table size returns the zero entry. -/
theorem lut_shape_last_value :
    (∀ (m : List (ℤ × MapVal)) (kv : ℤ × MapVal),
      computeNel (m ++ [kv]) = some (nelOf kv.2)) ∧
    (∀ (m : List (ℤ × MapVal)) (lut : Lut), buildLut m = Except.ok lut →
      ∀ j : ℕ, j < lut.size → (∀ kv ∈ m, effIndex lut.size kv.1 ≠ some j) →
        lutLookup lut j = List.replicate lut.nel 0) := by
  constructor
  · intro m kv
    simp [computeNel, List.foldl_append]
  · exact buildLut_unassigned_zero

/-- Witness for C3 amended: on the spec's example `{0: 5, 3: [1,2,3]}` the
last value has length 3, and the unmapped index 1 looks up the zero row. -/
theorem lut_shape_last_value_witness :
    computeNel ([((0 : ℤ), MapVal.scalar 5)] ++ [((3 : ℤ), MapVal.vec [1, 2, 3])]) =
      some (nelOf (MapVal.vec [1, 2, 3])) ∧
    lutLookup specLut 1 = List.replicate specLut.nel 0 :=
  ⟨lut_shape_last_value.1 [((0 : ℤ), MapVal.scalar 5)] ((3 : ℤ), MapVal.vec [1, 2, 3]),
   lut_shape_last_value.2 specDict specLut rfl 1 (by decide) (by decide)⟩

/-- C8: the lookup table is a dense zero-initialized array of
`max(key) + 100` entries, and an out-of-range key is skipped (recorded for
the `"Wrong key"` diagnostic) rather than failing the construction. -/
theorem lut_dense_skip_out_of_range (m : List (ℤ × MapVal)) (nel : ℕ) (K : ℤ)
    (hnel : computeNel m = some nel)
    (hst : ∀ kv ∈ m, storable nel kv.2 = true)
    (hK : K ∈ m.map (fun kv => kv.1))
    (hmax : ∀ kv ∈ m, kv.1 ≤ K) (h0 : 0 ≤ K) :
    ∃ lut : Lut, buildLut m = Except.ok lut ∧
      lut.nel = nel ∧
      lut.size = K.toNat + 100 ∧
      lut.rows.length = lut.size ∧
      (∀ kv ∈ m, effIndex lut.size kv.1 = none → kv.1 ∈ lut.skipped) ∧
      (∀ j : ℕ, j < lut.size → (∀ kv ∈ m, effIndex lut.size kv.1 ≠ some j) →
        lutLookup lut j = List.replicate nel 0) := by
  have hsz : lutSize m = K.toNat + 100 := by
    rw [lutSize, codeMaxKey_eq m K hK hmax h0]
  obtain ⟨rows', sk, hok, hsk⟩ :=
    assignLoop_ok nel (lutSize m) m
      (List.replicate (lutSize m) (List.replicate nel 0)) hst
  have hbuild : buildLut m = Except.ok ⟨nel, lutSize m, rows', sk⟩ := by
    simp [buildLut, hnel, hok]
  refine ⟨⟨nel, lutSize m, rows', sk⟩, hbuild, rfl, hsz, ?_, hsk, ?_⟩
  · have := assignLoop_length nel (lutSize m) m _ _ _ hok
    simpa using this
  · intro j hj hun
    exact buildLut_unassigned_zero m _ hbuild j hj hun

/-- Witness for C8: the mapping `{5: 7, -2000: 9}` builds a 105-entry table;
the key `-2000` is out of range, gets skipped, and index 1 is still the
zero entry. -/
theorem lut_dense_skip_witness :
    ∃ lut : Lut, buildLut skipDict = Except.ok lut ∧
      lut.nel = 1 ∧
      lut.size = (5 : ℤ).toNat + 100 ∧
      lut.rows.length = lut.size ∧
      (∀ kv ∈ skipDict, effIndex lut.size kv.1 = none → kv.1 ∈ lut.skipped) ∧
      (∀ j : ℕ, j < lut.size → (∀ kv ∈ skipDict, effIndex lut.size kv.1 ≠ some j) →
        lutLookup lut j = List.replicate 1 0) :=
  lut_dense_skip_out_of_range skipDict 1 5 (by rfl) (by decide) (by decide)
    (by decide) (by decide)

/-- C10: when every key of the mapping is nonnegative, every assignment
indexes within the `max(key) + 100` table, so the `IndexError` skip branch
is never taken and no entry is dropped. -/
theorem lut_nonneg_keys_never_skipped (m : List (ℤ × MapVal))
    (hpos : ∀ kv ∈ m, 0 ≤ kv.1) :
    (∀ kv ∈ m, effIndex (lutSize m) kv.1 = some kv.1.toNat) ∧
    (∀ lut : Lut, buildLut m = Except.ok lut → lut.skipped = []) := by
  have hin : ∀ kv ∈ m, effIndex (lutSize m) kv.1 = some kv.1.toNat := by
    intro kv hkv
    refine effIndex_nonneg_lt _ _ (hpos kv hkv) ?_
    have h1 : kv.1 ≤ codeMaxKey m := le_codeMaxKey m kv hkv
    have h2 : 0 ≤ codeMaxKey m := codeMaxKey_nonneg m
    rw [lutSize]
    push_cast
    omega
  refine ⟨hin, ?_⟩
  intro lut hlut
  obtain ⟨_, hsize, hassign⟩ := buildLut_ok_inv m lut hlut
  exact assignLoop_skipped_nil _ _ m _ _ _
    (fun kv hkv => by rw [hin kv hkv]; simp) hassign

/-- Witness for C10: on the nonnegative-key mapping `{0: 5, 3: [1,2,3]}` the
key 3 indexes in bounds and the built table has an empty skip list. -/
theorem lut_nonneg_keys_witness :
    effIndex (lutSize specDict) (3 : ℤ) = some (3 : ℤ).toNat ∧
    specLut.skipped = [] :=
  ⟨(lut_nonneg_keys_never_skipped specDict (by decide)).1
      ((3 : ℤ), MapVal.vec [1, 2, 3]) (by decide),
   (lut_nonneg_keys_never_skipped specDict (by decide)).2 specLut rfl⟩

/-! ### Theorems: paired two-domain dataset (claim C1) -/

/-- C1: the code sets `sizeA = len(data_statsA)` and `sizeB = len(data_statsB)`
— the sizes of the statistics dictionaries, not of the scan collections.
On a `BinaryScan` whose domain-A dataset holds 5 scans and domain-B dataset
holds 2 scans, each with a 3-entry statistics dictionary, `__len__` returns
3 instead of `max(5, 2) = 5`, and the domain-A index for `i = 4` is
`4 % 3 = 1` instead of `4 % 5 = 4`. -/
theorem binaryScan_length_uses_stats_sizes :
    bsEx.datasetA.length = 5 ∧ bsEx.datasetB.length = 2 ∧
    BinaryScan.length bsEx = 3 ∧
    max bsEx.datasetA.length bsEx.datasetB.length = 5 ∧
    BinaryScan.length bsEx ≠ max bsEx.datasetA.length bsEx.datasetB.length ∧
    bsEx.indexA 4 = 1 ∧ 4 % bsEx.datasetA.length = 4 ∧
    bsEx.indexA 4 ≠ 4 % bsEx.datasetA.length := by
  refine ⟨rfl, rfl, rfl, rfl, ?_, rfl, rfl, ?_⟩ <;> decide

/-! ### Theorems: upsampling axis (claim C4) -/

/-- C4 counterexample: on a (6, 1, 2) scan, `np.repeat(proj, 4, axis=1)`
leaves the returned grids with height 4 and width 2 — the height axis is
repeated — whereas the claim predicts height 1 and width 8. -/
theorem repeat_axis_counterexample :
    gridH (chan projEx 5) = 1 ∧ gridW (chan projEx 5) = 2 ∧
    gridH (getitem projEx false).mask = 4 ∧
    gridW (getitem projEx false).mask = 2 ∧
    ¬(gridH (getitem projEx false).mask = gridH (chan projEx 5) ∧
      gridW (getitem projEx false).mask = 4 * gridW (chan projEx 5)) := by
  refine ⟨rfl, rfl, rfl, rfl, ?_⟩
  decide

/-- C4 amended: indexed access repeats the grid 4 times along the height
axis (axis 1 of the (C, H, W) array): the returned mask is the repeated
channel 5, the repeated grid has `4 * H` rows, and every row of the
repeated grid is a row of the original, so the width is unchanged. -/
theorem repeatRows_length (k : ℕ) (g : Grid) :
    (repeatRows k g).length = k * g.length := by
  induction g with
  | nil => simp [repeatRows]
  | cons r t ih =>
    simp only [repeatRows, List.flatMap_cons, List.length_append,
      List.length_replicate, List.length_cons, Nat.mul_succ] at *
    omega

theorem repeat_axis_is_height (proj : List Grid) (b : Bool) (g : Grid) :
    (getitem proj b).mask = repeatRows 4 (chan proj 5) ∧
    gridH (repeatRows 4 g) = 4 * gridH g ∧
    (∀ r ∈ repeatRows 4 g, r ∈ g) := by
  refine ⟨rfl, repeatRows_length 4 g, ?_⟩
  intro r hr
  obtain ⟨s, hs, hrep⟩ := List.mem_flatMap.mp hr
  rw [List.eq_of_mem_replicate hrep]
  exact hs

/-- Witness for C4 amended, at the concrete (6, 1, 2) scan: the mask is the
row-repeated channel 5, the repeated grid is 4 rows tall, and the row
`[1, 1]` of the repeated mask is a row of the original channel. -/
theorem repeat_axis_is_height_witness :
    (getitem projEx false).mask = repeatRows 4 (chan projEx 5) ∧
    gridH (repeatRows 4 (chan projEx 5)) = 4 * gridH (chan projEx 5) ∧
    ([(1 : ℚ), 1] ∈ chan projEx 5) :=
  ⟨(repeat_axis_is_height projEx false (chan projEx 5)).1,
   (repeat_axis_is_height projEx false (chan projEx 5)).2.1,
   (repeat_axis_is_height projEx false (chan projEx 5)).2.2 [(1 : ℚ), 1] (by decide)⟩

/-! ### Theorems: loader splits (claims C5, C6) -/

/-- C5: for `0 ≤ r ≤ 1`, the validation subset is the first `⌊r * n⌋`
indices of `range n` and the training subset is the remaining
`n - ⌊r * n⌋` indices. -/
theorem loader_split_contiguous (n : ℕ) (r : ℚ) (h0 : 0 ≤ r) (h1 : r ≤ 1) :
    valIndcs n r = (List.range n).take (⌊r * n⌋).toNat ∧
    trainIndcs n r = (List.range n).drop (⌊r * n⌋).toNat ∧
    (valIndcs n r).length = (⌊r * n⌋).toNat ∧
    (trainIndcs n r).length = n - (⌊r * n⌋).toNat := by
  have hrn : 0 ≤ r * (n : ℚ) := mul_nonneg h0 (by positivity)
  have hint : splitIndex n r = ⌊r * (n : ℚ)⌋ := by
    rw [splitIndex, pyInt, if_pos hrn]
  have hfl : 0 ≤ ⌊r * (n : ℚ)⌋ := Int.floor_nonneg.mpr hrn
  have hle : (⌊r * (n : ℚ)⌋).toNat ≤ n := by
    have : r * (n : ℚ) ≤ (n : ℚ) := by
      calc r * (n : ℚ) ≤ 1 * (n : ℚ) := by
            apply mul_le_mul_of_nonneg_right h1; positivity
        _ = (n : ℚ) := one_mul _
    have h2 : ⌊r * (n : ℚ)⌋ ≤ (n : ℤ) := by
      have := Int.floor_le_floor this
      simpa using this
    omega
  have hval : valIndcs n r = (List.range n).take (⌊r * n⌋).toNat := by
    rw [valIndcs, hint, pySliceTo, if_pos hfl]
  have htrain : trainIndcs n r = (List.range n).drop (⌊r * n⌋).toNat := by
    rw [trainIndcs, hint, pySliceFrom, if_pos hfl]
  refine ⟨hval, htrain, ?_, ?_⟩
  · rw [hval, List.length_take, List.length_range]
    omega
  · rw [htrain, List.length_drop, List.length_range]

/-- Witness for C5 at ratio 0.2 and 100 samples: the validation set has 20
samples and the training set has 80. -/
theorem loader_split_contiguous_witness :
    (valIndcs 100 (1/5)).length = (⌊(1/5 : ℚ) * (100 : ℕ)⌋).toNat ∧
    (trainIndcs 100 (1/5)).length = 100 - (⌊(1/5 : ℚ) * (100 : ℕ)⌋).toNat ∧
    (⌊(1/5 : ℚ) * (100 : ℕ)⌋).toNat = 20 ∧ (100 : ℕ) - 20 = 80 :=
  ⟨(loader_split_contiguous 100 (1/5) (by norm_num) (by norm_num)).2.2.1,
   (loader_split_contiguous 100 (1/5) (by norm_num) (by norm_num)).2.2.2,
   by rw [show (⌊(1/5 : ℚ) * (100 : ℕ)⌋) = 20 by norm_num]; rfl, by norm_num⟩

/-- C6 counterexample: with 5 total samples, ratio 0.2 and batch size 8,
the train split has 4 samples and the validation split 1 — neither is
empty — yet `Loader.__init__` fails: the train `DataLoader` drops the
incomplete batch and has length 0. -/
theorem loader_assert_counterexample :
    (trainIndcs 5 (1/5)).length = 4 ∧ (valIndcs 5 (1/5)).length = 1 ∧
    loaderInit 5 8 (1/5) true true = Except.error "assert len(trainloader) > 0" := by
  have hsp : splitIndex 5 (1/5) = 1 := by
    rw [splitIndex, pyInt, if_pos (by norm_num)]
    norm_num
  have htr : trainIndcs 5 (1/5) = [1, 2, 3, 4] := by
    show pySliceFrom (List.range 5) (splitIndex 5 (1/5)) = [1, 2, 3, 4]
    rw [hsp]
    rfl
  have hval : valIndcs 5 (1/5) = [0] := by
    show pySliceTo (List.range 5) (splitIndex 5 (1/5)) = [0]
    rw [hsp]
    rfl
  refine ⟨by rw [htr]; rfl, by rw [hval]; rfl, ?_⟩
  simp only [loaderInit]
  rw [htr]
  norm_num [dataLoaderLen]

/-- C6 amended: loader construction succeeds iff every constructed
`DataLoader` has at least one batch (plus, in training mode, the
`is_training_data` assertion): the validation/test loader is non-empty iff
its split is non-empty, but the train loader (`drop_last=True`) needs the
train split to reach the batch size, so a non-empty train split smaller
than `batch_size` still fails. -/
theorem loader_assert_batch_counts (n batchSize : ℕ) (r : ℚ)
    (isTrain isTrainingData : Bool) (hb : 0 < batchSize) :
    isOkE (loaderInit n batchSize r isTrain isTrainingData) = true ↔
      (if isTrain then
        isTrainingData = true ∧ batchSize ≤ (trainIndcs n r).length ∧
          (valIndcs n r).length ≠ 0
      else (if isTrainingData then (valIndcs n r).length else n) ≠ 0) := by
  have hceil : ∀ k : ℕ, dataLoaderLen k batchSize false = 0 ↔ k = 0 := by
    intro k
    rw [dataLoaderLen, if_neg (by simp), Nat.div_eq_zero_iff hb]
    omega
  have hfloor : ∀ k : ℕ, dataLoaderLen k batchSize true = 0 ↔ k < batchSize := by
    intro k
    rw [dataLoaderLen, if_pos rfl]
    exact Nat.div_eq_zero_iff hb
  cases isTrain with
  | true =>
    cases isTrainingData with
    | false =>
      have h : loaderInit n batchSize r true false =
          Except.error "assert is_training_data" := by
        simp [loaderInit]
      rw [h]
      simp [isOkE]
    | true =>
      by_cases htb : dataLoaderLen (trainIndcs n r).length batchSize true = 0
      · have h : loaderInit n batchSize r true true =
            Except.error "assert len(trainloader) > 0" := by
          simp [loaderInit, htb]
        rw [h]
        have hlt : (trainIndcs n r).length < batchSize := (hfloor _).mp htb
        simp [isOkE]
        omega
      · have hge : batchSize ≤ (trainIndcs n r).length := by
          have hlt : ¬((trainIndcs n r).length < batchSize) :=
            fun hh => htb ((hfloor _).mpr hh)
          omega
        by_cases hvb : dataLoaderLen (valIndcs n r).length batchSize false = 0
        · have hv0 : (valIndcs n r).length = 0 := (hceil _).mp hvb
          have h : loaderInit n batchSize r true true =
              Except.error "assert len(validloader) > 0" := by
            simp [loaderInit, htb, hvb]
          rw [h]
          simp [isOkE, hv0]
        · have hv : (valIndcs n r).length ≠ 0 := fun hh => hvb ((hceil _).mpr hh)
          have h : loaderInit n batchSize r true true =
              Except.ok (.trainVal (dataLoaderLen (trainIndcs n r).length batchSize true)
                (dataLoaderLen (valIndcs n r).length batchSize false)) := by
            simp [loaderInit, htb, hvb]
          rw [h]
          simp [isOkE, hge, hv]
  | false =>
    by_cases htb : dataLoaderLen
        (if isTrainingData then (valIndcs n r).length else n) batchSize false = 0
    · have h : loaderInit n batchSize r false isTrainingData =
          Except.error "assert len(testloader) > 0" := by
        simp [loaderInit, htb]
      rw [h]
      have h0 := (hceil _).mp htb
      simp [isOkE, h0]
    · have h : loaderInit n batchSize r false isTrainingData =
          Except.ok (.testOnly (dataLoaderLen
            (if isTrainingData then (valIndcs n r).length else n) batchSize false)) := by
        simp [loaderInit, htb]
      rw [h]
      have h0 : (if isTrainingData then (valIndcs n r).length else n) ≠ 0 :=
        fun hh => htb ((hceil _).mpr hh)
      simp [isOkE, h0]

/-! ### Helper lemmas about masked selections -/

theorem maskedRow_cons (c mv : ℚ) (cs ms : List ℚ) :
    maskedRow (c :: cs) (mv :: ms) =
      if mv = 1 then c :: maskedRow cs ms else maskedRow cs ms := by
  by_cases h : mv = 1 <;> simp [maskedRow, h]

theorem unmaskedRow_cons (c mv : ℚ) (cs ms : List ℚ) :
    unmaskedRow (c :: cs) (mv :: ms) =
      if mv = 1 then unmaskedRow cs ms else c :: unmaskedRow cs ms := by
  by_cases h : mv = 1 <;> simp [unmaskedRow, h]

theorem maskedRow_zipWith (f : ℚ → ℚ → ℚ) :
    ∀ cr mr : List ℚ,
      maskedRow (List.zipWith f cr mr) mr = (maskedRow cr mr).map (fun x => f x 1) := by
  intro cr
  induction cr with
  | nil => intro mr; simp [maskedRow]
  | cons c cs ih =>
    intro mr
    cases mr with
    | nil => simp [maskedRow]
    | cons mv ms =>
      rw [List.zipWith_cons_cons, maskedRow_cons, maskedRow_cons]
      by_cases h : mv = 1
      · subst h
        simp [ih ms]
      · simp [h, ih ms]

theorem maskedVals_cons (r s : List ℚ) (ch m : Grid) :
    maskedVals (r :: ch) (s :: m) = maskedRow r s ++ maskedVals ch m := by
  simp [maskedVals]

theorem maskedVals_gridZip (f : ℚ → ℚ → ℚ) :
    ∀ ch m : Grid,
      maskedVals (gridZip f ch m) m = (maskedVals ch m).map (fun x => f x 1) := by
  intro ch
  induction ch with
  | nil => intro m; simp [maskedVals, gridZip]
  | cons r ch' ih =>
    intro m
    cases m with
    | nil => simp [maskedVals, gridZip]
    | cons s m' =>
      show maskedVals (List.zipWith f r s :: List.zipWith (List.zipWith f) ch' m')
          (s :: m') = _
      rw [maskedVals_cons, maskedVals_cons, List.map_append, maskedRow_zipWith]
      have := ih m'
      rw [gridZip] at this
      rw [this]

theorem zipWith_replicate_same {α β γ : Type} (f : α → β → γ) (k : ℕ) (a : α) (b : β) :
    List.zipWith f (List.replicate k a) (List.replicate k b) =
      List.replicate k (f a b) := by
  induction k with
  | zero => rfl
  | succ n ih => simp [List.replicate_succ, ih]

theorem zipWith_repeatRows {α : Type} (f : List ℚ → List ℚ → α) (k : ℕ) :
    ∀ a b : Grid,
      List.zipWith f (repeatRows k a) (repeatRows k b) =
        (List.zipWith f a b).flatMap (fun x => List.replicate k x) := by
  intro a
  induction a with
  | nil => intro b; simp [repeatRows]
  | cons r a' ih =>
    intro b
    cases b with
    | nil => simp [repeatRows]
    | cons s b' =>
      simp only [repeatRows, List.flatMap_cons, List.zipWith_cons_cons]
      rw [List.zipWith_append _ _ _ _ _ (by simp), zipWith_replicate_same]
      congr 1
      exact ih b'

theorem mem_flatten_flatMap_replicate {α : Type} (k : ℕ) (L : List (List α)) (v : α)
    (hv : v ∈ (L.flatMap (fun x => List.replicate k x)).flatten) : v ∈ L.flatten := by
  obtain ⟨row, hrow, hvrow⟩ := List.mem_flatten.mp hv
  obtain ⟨x, hx, hxr⟩ := List.mem_flatMap.mp hrow
  rw [List.eq_of_mem_replicate hxr] at hvrow
  exact List.mem_flatten.mpr ⟨x, hx, hvrow⟩

theorem maskedVals_repeatRows_mem (k : ℕ) (ch m : Grid) (v : ℚ)
    (hv : v ∈ maskedVals (repeatRows k ch) (repeatRows k m)) : v ∈ maskedVals ch m := by
  rw [maskedVals, zipWith_repeatRows maskedRow k ch m] at hv
  exact mem_flatten_flatMap_replicate k _ v hv

theorem gridVals_repeatRows_mem (k : ℕ) (m : Grid) (w : ℚ)
    (hw : w ∈ gridVals (repeatRows k m)) : w ∈ gridVals m := by
  rw [gridVals, repeatRows] at hw
  exact mem_flatten_flatMap_replicate k m w hw

theorem unmaskedRow_mul_zero :
    ∀ cr mr : List ℚ, (∀ w ∈ mr, w = 0 ∨ w = 1) →
      ∀ v ∈ unmaskedRow (List.zipWith (fun x mv => x * mv) cr mr) mr, v = 0 := by
  intro cr
  induction cr with
  | nil => intro mr _ v hv; simp [unmaskedRow] at hv
  | cons c cs ih =>
    intro mr hbin v hv
    cases mr with
    | nil => simp [unmaskedRow] at hv
    | cons mv ms =>
      rw [List.zipWith_cons_cons, unmaskedRow_cons] at hv
      by_cases h : mv = 1
      · rw [if_pos h] at hv
        exact ih ms (fun w hw => hbin w (List.mem_cons_of_mem _ hw)) v hv
      · rw [if_neg h] at hv
        rcases List.mem_cons.mp hv with rfl | hv'
        · rcases hbin mv (List.mem_cons_self _ _) with h0 | h1
          · rw [h0, mul_zero]
          · exact absurd h1 h
        · exact ih ms (fun w hw => hbin w (List.mem_cons_of_mem _ hw)) v hv'

theorem unmaskedVals_mul_zero :
    ∀ g m : Grid, (∀ w ∈ gridVals m, w = 0 ∨ w = 1) →
      ∀ v ∈ unmaskedVals (gridZip (fun x mv => x * mv) g m) m, v = 0 := by
  intro g
  induction g with
  | nil => intro m _ v hv; simp [unmaskedVals, gridZip] at hv
  | cons r g' ih =>
    intro m hbin v hv
    cases m with
    | nil => simp [unmaskedVals, gridZip] at hv
    | cons s m' =>
      have hv' : v ∈ unmaskedRow (List.zipWith (fun x mv => x * mv) r s) s ++
          unmaskedVals (gridZip (fun x mv => x * mv) g' m') m' := by
        simpa [unmaskedVals, gridZip] using hv
      rcases List.mem_append.mp hv' with h1 | h2
      · exact unmaskedRow_mul_zero r s
          (fun w hw => hbin w (by simp [gridVals]; exact Or.inl hw)) v h1
      · exact ih m'
          (fun w hw => hbin w (by simp [gridVals] at hw ⊢; exact Or.inr hw)) v h2

/-! ### Helper lemmas about list minima and maxima -/

theorem foldl_min_le_init (xs : List ℚ) : ∀ a : ℚ, xs.foldl min a ≤ a := by
  induction xs with
  | nil => intro a; exact le_refl a
  | cons x t ih => intro a; exact le_trans (ih (min a x)) (min_le_left a x)

theorem foldl_min_le_mem (xs : List ℚ) : ∀ a x : ℚ, x ∈ xs → xs.foldl min a ≤ x := by
  induction xs with
  | nil => intro a x h; cases h
  | cons y t ih =>
    intro a x hx
    rcases List.mem_cons.mp hx with rfl | h'
    · exact le_trans (foldl_min_le_init t (min a x)) (min_le_right a x)
    · exact ih (min a y) x h'

theorem listMin_le_mem (l : List ℚ) (x : ℚ) (h : x ∈ l) : listMin l ≤ x := by
  cases l with
  | nil => cases h
  | cons y t =>
    rcases List.mem_cons.mp h with rfl | h'
    · exact foldl_min_le_init t x
    · exact foldl_min_le_mem t y x h'

theorem le_foldl_max_init (xs : List ℚ) : ∀ a : ℚ, a ≤ xs.foldl max a := by
  induction xs with
  | nil => intro a; exact le_refl a
  | cons x t ih => intro a; exact le_trans (le_max_left a x) (ih (max a x))

theorem mem_le_foldl_max (xs : List ℚ) : ∀ a x : ℚ, x ∈ xs → x ≤ xs.foldl max a := by
  induction xs with
  | nil => intro a x h; cases h
  | cons y t ih =>
    intro a x hx
    rcases List.mem_cons.mp hx with rfl | h'
    · exact le_trans (le_max_right a x) (le_foldl_max_init t (max a x))
    · exact ih (max a y) x h'

theorem le_listMax_mem (l : List ℚ) (x : ℚ) (h : x ∈ l) : x ≤ listMax l := by
  cases l with
  | nil => cases h
  | cons y t =>
    rcases List.mem_cons.mp h with rfl | h'
    · exact le_foldl_max_init t x
    · exact mem_le_foldl_max t y x h'

theorem listMin_lt_listMax (l : List ℚ) (hd : TwoDistinct l) :
    listMin l < listMax l := by
  obtain ⟨a, ha, b, hb, hab⟩ := hd
  rcases lt_or_gt_of_ne hab with h | h
  · exact lt_of_le_of_lt (listMin_le_mem l a ha)
      (lt_of_lt_of_le h (le_listMax_mem l b hb))
  · exact lt_of_le_of_lt (listMin_le_mem l b hb)
      (lt_of_lt_of_le h (le_listMax_mem l a ha))

/-! ### Helper lemmas about the per-channel normalization -/

theorem normVal_bounds (mn mx x : ℚ) (h1 : mn ≤ x) (h2 : x ≤ mx) (hlt : mn < mx) :
    -1 ≤ normVal mn mx x ∧ normVal mn mx x ≤ 1 := by
  have hd : 0 < mx - mn := by linarith
  have ht0 : 0 ≤ (x - mn) / (mx - mn) := div_nonneg (by linarith) hd.le
  have ht1 : (x - mn) / (mx - mn) ≤ 1 := (div_le_one hd).mpr (by linarith)
  have heq : normVal mn mx x = 2 * ((x - mn) / (mx - mn)) - 1 := by
    rw [normVal]; ring
  rw [heq]
  constructor <;> linarith

theorem maskedVals_normChannel (ch m : Grid) :
    maskedVals (normChannel ch m) m =
      (maskedVals ch m).map
        (normVal (listMin (maskedVals ch m)) (listMax (maskedVals ch m))) := by
  simp only [normChannel]
  rw [maskedVals_gridZip]
  simp

/-! ### Theorems: normalization and masking (claims C2, C7) -/

/-- C2: when channel 5 is a binary mask and channels 0-4 each take two
distinct values over the valid pixels, every masked pixel of the returned
xyz/range/remission tensors lies in `[-1, 1]` and every unmasked pixel is
zero, since each returned tensor is multiplied by the mask. -/
theorem getitem_masked_bounds_unmasked_zero (proj : List Grid) (hRgb : Bool)
    (hbin : ∀ w ∈ gridVals (chan proj 5), w = 0 ∨ w = 1)
    (hdist : ∀ i, i < 5 → TwoDistinct (maskedVals (chan proj i) (chan proj 5))) :
    ∀ g ∈ outChannels (getitem proj hRgb),
      (∀ v ∈ maskedVals g (getitem proj hRgb).mask, -1 ≤ v ∧ v ≤ 1) ∧
      (∀ v ∈ unmaskedVals g (getitem proj hRgb).mask, v = 0) := by
  intro g hg
  have hmask : (getitem proj hRgb).mask = repeatRows 4 (chan proj 5) := rfl
  rw [hmask]
  have hout : outChannels (getitem proj hRgb) =
      (List.range 5).map (fun i =>
        gridZip (fun x mv => x * mv)
          (repeatRows 4 (normChannel (chan proj i) (chan proj 5)))
          (repeatRows 4 (chan proj 5))) := rfl
  rw [hout] at hg
  obtain ⟨i, hi, rfl⟩ := List.mem_map.mp hg
  have hi5 : i < 5 := List.mem_range.mp hi
  constructor
  · intro v hv
    rw [maskedVals_gridZip] at hv
    obtain ⟨x, hx, rfl⟩ := List.mem_map.mp hv
    have hx' := maskedVals_repeatRows_mem 4 _ _ x hx
    rw [maskedVals_normChannel] at hx'
    obtain ⟨y, hy, rfl⟩ := List.mem_map.mp hx'
    have h1 := listMin_le_mem _ y hy
    have h2 := le_listMax_mem _ y hy
    have hlt := listMin_lt_listMax _ (hdist i hi5)
    have hb := normVal_bounds _ _ _ h1 h2 hlt
    simpa using hb
  · intro v hv
    exact unmaskedVals_mul_zero _ _
      (fun w hw => hbin w (gridVals_repeatRows_mem 4 _ w hw)) v hv

/-- Witness for C2, at the concrete (6, 1, 2) scan `projEx`: the returned
range tensor has all masked pixels in `[-1, 1]` and all unmasked pixels
zero. -/
theorem getitem_masked_bounds_witness :
    (∀ v ∈ maskedVals (getitem projEx false).range (getitem projEx false).mask,
      -1 ≤ v ∧ v ≤ 1) ∧
    (∀ v ∈ unmaskedVals (getitem projEx false).range (getitem projEx false).mask,
      v = 0) :=
  getitem_masked_bounds_unmasked_zero projEx false (by decide) (by decide)
    (getitem projEx false).range (by simp [outChannels])

/-- C7: when a channel is constant over the (nonempty) valid pixels, the
min-max normalization of `UnaryScan.__getitem__` divides by the zero
denominator `Max - Min`: no guard prevents it, every masked pixel is mapped
through the division-by-zero expression. -/
theorem division_by_zero_unguarded (ch m : Grid)
    (hne : maskedVals ch m ≠ [])
    (hconst : listMin (maskedVals ch m) = listMax (maskedVals ch m)) :
    normDenom ch m = 0 ∧
    maskedVals (normChannel ch m) m =
      (maskedVals ch m).map
        (fun x => ((x - listMin (maskedVals ch m)) / 0 - 1/2) / (1/2)) := by
  have hden : normDenom ch m = 0 := by rw [normDenom, hconst]; ring
  refine ⟨hden, ?_⟩
  rw [maskedVals_normChannel]
  apply List.map_congr_left
  intro x hx
  rw [normVal, ← hconst, sub_self]

/-- Witness for C7: a channel with the constant value 2 on an all-valid
1x2 mask has a zero normalization denominator, and its masked pixels are
mapped through the division by that zero. -/
theorem division_by_zero_unguarded_witness :
    normDenom constChan fullMask = 0 ∧
    maskedVals (normChannel constChan fullMask) fullMask =
      (maskedVals constChan fullMask).map
        (fun x => ((x - listMin (maskedVals constChan fullMask)) / 0 - 1/2) / (1/2)) :=
  division_by_zero_unguarded constChan fullMask (by decide) (by decide)

/-- Witness for C6 amended: with 100 samples, batch size 4 and ratio 0.2
in training mode, both loaders are non-empty and construction succeeds. -/
theorem loader_assert_batch_counts_witness :
    isOkE (loaderInit 100 4 (1/5) true true) = true ↔
      (if true then
        (true : Bool) = true ∧ 4 ≤ (trainIndcs 100 (1/5)).length ∧
          (valIndcs 100 (1/5)).length ≠ 0
      else (if true then (valIndcs 100 (1/5)).length else 100) ≠ 0) :=
  loader_assert_batch_counts 100 4 (1/5) true true (by decide)

end LidarSpec
